import Mathlib

/-!
Verification development for the moltbot-supermemory plugin.

The two core components of the repository are embedded here as executable
Lean definitions:

* the query sanitizer of `src/sanitize-query.ts` (`sanitizeQuery`,
  `needsSanitization`), including faithful models of its regular-expression
  pattern families (JavaScript leftmost, greedy-with-backtracking matching
  semantics, hand-derived per pattern), and

* the container-tag resolver of `src/types.ts` (`resolveContainerTag`,
  `parseConfig` defaults), plus the orchestration call sites in
  `src/hooks.ts` and `src/tools.ts` that feed queries and identifiers to
  these components, and the response flattening of
  `src/supermemory-client.ts`.

The external `stripEnvelope` delegate of the host SDK is not part of this
repository; the embedding models the in-repo fallback path of
`stripChannelEnvelope` (the regex `CHANNEL_METADATA_PATTERN`), which is the
code path taken when the host utility is unavailable.
-/

/-- Word character in the sense of the JavaScript regex class `\w`:
ASCII letters, ASCII digits and underscore. -/
def isWordChar (c : Char) : Bool :=
  (('a' ≤ c && c ≤ 'z') || ('A' ≤ c && c ≤ 'Z') || ('0' ≤ c && c ≤ '9') || c = '_')

/-- Whitespace in the sense of the JavaScript regex class `\s` (and of
`String.prototype.trim`): ASCII whitespace plus the Unicode space
characters and BOM. -/
def jsSpace (c : Char) : Bool :=
  c = ' ' || c = '\t' || c = '\n' || c = '\r' ||
  c = (Char.ofNat 0x0b) || c = (Char.ofNat 0x0c) ||
  c = (Char.ofNat 0xa0) || c = (Char.ofNat 0x1680) ||
  ((Char.ofNat 0x2000) ≤ c && c ≤ (Char.ofNat 0x200a)) ||
  c = (Char.ofNat 0x2028) || c = (Char.ofNat 0x2029) ||
  c = (Char.ofNat 0x202f) || c = (Char.ofNat 0x205f) ||
  c = (Char.ofNat 0x3000) || c = (Char.ofNat 0xfeff)

/-- ASCII digit, the JavaScript regex class `\d`. -/
def isDigitChar (c : Char) : Bool := '0' ≤ c && c ≤ '9'

/-- Quote characters of the class `["']`. The single quote is written by
code point to keep the source free of quoted apostrophes. -/
def isQuoteChar (c : Char) : Bool := c = '"' || c = Char.ofNat 39

/-- Characters of the class `[\w-]` used by the user-id pattern. -/
def isWordHyphen (c : Char) : Bool := isWordChar c || c = '-'

/-- Case-insensitive character comparison (the `i` regex flag). -/
def ciChar (a b : Char) : Bool := a.toLower = b.toLower

/-- Word-character test on an optional character; a missing character
(string edge) counts as a non-word position, as in JavaScript `\b`. -/
def optWord : Option Char → Bool
  | none => false
  | some c => isWordChar c

/-- Length of the longest prefix whose characters satisfy `p`. -/
def countWhile (p : Char → Bool) (s : List Char) : Nat :=
  (s.takeWhile p).length

/-- Consume the literal `pat` case-insensitively from the front of `s`,
returning the rest on success. -/
def eatCI : List Char → List Char → Option (List Char)
  | [], s => some s
  | _ :: _, [] => none
  | c :: cs, x :: xs => if ciChar x c then eatCI cs xs else none

/-- Consume the literal `pat` case-sensitively from the front of `s`. -/
def eatExact : List Char → List Char → Option (List Char)
  | [], s => some s
  | _ :: _, [] => none
  | c :: cs, x :: xs => if x = c then eatExact cs xs else none

/-- Consume exactly `n` characters satisfying `p`. -/
def pCount (p : Char → Bool) : Nat → List Char → Option (List Char)
  | 0, s => some s
  | _ + 1, [] => none
  | n + 1, c :: cs => if p c then pCount p n cs else none

/-- Consume one character satisfying `p`. -/
def pCh (p : Char → Bool) : List Char → Option (List Char)
  | [] => none
  | c :: cs => if p c then some cs else none

/-- A positional matcher: given the original character preceding the
current position (for `\b` look-behind; `none` at the start of the string)
and the remaining suffix, return the length of the regex match starting
exactly here, if any.  Each matcher hand-implements the leftmost
greedy-with-backtracking semantics of one JavaScript regex of
`src/sanitize-query.ts`. -/
abbrev Matcher := Option Char → List Char → Option Nat

/-- Optional seconds group `(?::\d{2})?` of the ISO timestamp pattern. -/
def pOptSeconds (s : List Char) : List Char :=
  match pCh (· = ':') s with
  | some t =>
    match pCount isDigitChar 2 t with
    | some u => u
    | none => s
  | none => s

/-- Optional fraction group `(?:\.\d+)?` of the ISO timestamp pattern. -/
def pOptFrac (s : List Char) : List Char :=
  match pCh (· = '.') s with
  | some t =>
    let k := countWhile isDigitChar t
    if 1 ≤ k then t.drop k else s
  | none => s

/-- Optional zone group `(?:Z|[+-]\d{2}:?\d{2})?` of the ISO timestamp
pattern, including the backtracking of the inner `:?`. -/
def pOptZone (s : List Char) : List Char :=
  match s with
  | [] => s
  | c :: t =>
    if c = 'Z' then t
    else if c = '+' || c = '-' then
      match pCount isDigitChar 2 t with
      | some u =>
        match pCh (· = ':') u with
        | some v =>
          match pCount isDigitChar 2 v with
          | some w => w
          | none =>
            match pCount isDigitChar 2 u with
            | some w => w
            | none => s
        | none =>
          match pCount isDigitChar 2 u with
          | some w => w
          | none => s
      | none => s
    else s

/-- Parse one match of the first timestamp pattern
`\d{4}-\d{2}-\d{2}[T ]\d{2}:\d{2}(?::\d{2})?(?:\.\d+)?(?:Z|[+-]\d{2}:?\d{2})?\s*(?:UTC)?`
(`src/sanitize-query.ts` line 55) at the front of `s`, returning the rest. -/
def parseIso (s : List Char) : Option (List Char) := do
  let r ← pCount isDigitChar 4 s
  let r ← pCh (· = '-') r
  let r ← pCount isDigitChar 2 r
  let r ← pCh (· = '-') r
  let r ← pCount isDigitChar 2 r
  let r ← pCh (fun c => c = 'T' || c = ' ') r
  let r ← pCount isDigitChar 2 r
  let r ← pCh (· = ':') r
  let r ← pCount isDigitChar 2 r
  let r := pOptSeconds r
  let r := pOptFrac r
  let r := pOptZone r
  let r := r.dropWhile jsSpace
  let r := match eatExact ['U', 'T', 'C'] r with
    | some u => u
    | none => r
  pure r

/-- Matcher for the ISO-8601-like timestamp pattern (line 55). -/
def isoM : Matcher := fun _ s => (parseIso s).map (fun r => s.length - r.length)

/-- Matcher for `\b\d{10,13}\b`, bare Unix timestamps (line 56).  A digit
run matches exactly when it is maximal, 10 to 13 digits long, and flanked
by non-word positions. -/
def unixM : Matcher := fun prev s =>
  if optWord prev then none
  else
    let k := countWhile isDigitChar s
    if 10 ≤ k && k ≤ 13 && !(optWord s[k]?) then some k else none

/-- Matcher for `\+\d+[smhd]\b`, relative-time tokens (line 57). -/
def relM : Matcher := fun _ s =>
  match s with
  | '+' :: t =>
    let k := countWhile isDigitChar t
    if 1 ≤ k then
      match t[k]? with
      | some u =>
        if (u = 's' || u = 'm' || u = 'h' || u = 'd') && !(optWord t[(k + 1)]?) then
          some (k + 2)
        else none
      | none => none
    else none
  | _ => none

/-- Matcher for `\bid:\s*\d+\b` (case-insensitive, line 64). -/
def idM : Matcher := fun prev s =>
  if optWord prev then none
  else
    match eatCI ['i', 'd', ':'] s with
    | none => none
    | some r =>
      let a := countWhile jsSpace r
      let t := r.drop a
      let k := countWhile isDigitChar t
      if 1 ≤ k && !(optWord t[k]?) then some (3 + a + k) else none

/-- Consume the optional underscore of `user_?id` and `chat_?id`. -/
def eatUnderscoreOpt : List Char → List Char
  | '_' :: t => t
  | r => r

/-- Resolution of the trailing `["']?\b` of the user-id pattern after the
greedy `[\w-]+` run of length `k` in `t`: JavaScript first tries the full
run with the closing quote, then the full run without it, then backtracks
the run one character at a time; the result is the accepted consumed
length inside `t`. -/
def uidTail (t : List Char) (k : Nat) : Option Nat :=
  if (match t[k]? with
      | some q => isQuoteChar q
      | none => false) && optWord t[(k + 1)]? then
    some (k + 1)
  else if optWord t[(k - 1)]? && !(optWord t[k]?) then some k
  else uidBack t (k - 1)
where
  /-- Backtracking of `[\w-]+` to shorter lengths: accept the largest
  `j ≥ 1` with a word boundary between `t[j-1]` and `t[j]`. -/
  uidBack (t : List Char) : Nat → Option Nat
    | 0 => none
    | j + 1 =>
      if optWord t[j]? != optWord t[(j + 1)]? then some (j + 1)
      else uidBack t j

/-- Length consumed by the optional opening quote `["']?`. -/
def openQuoteLen : List Char → Nat
  | c :: _ => if isQuoteChar c then 1 else 0
  | [] => 0

/-- Matcher for `\buser_?id:\s*["']?[\w-]+["']?\b` (case-insensitive,
line 65), with the quote and run backtracking of `uidTail`. -/
def userIdM : Matcher := fun prev s =>
  if optWord prev then none
  else
    match eatCI ['u', 's', 'e', 'r'] s with
    | none => none
    | some r1 =>
      let r2 := eatUnderscoreOpt r1
      match eatCI ['i', 'd', ':'] r2 with
      | none => none
      | some r3 =>
        let a := countWhile jsSpace r3
        let t := r3.drop a
        let oq := openQuoteLen t
        let t2 := t.drop oq
        let k := countWhile isWordHyphen t2
        if k = 0 then none
        else
          match uidTail t2 k with
          | some j => some (s.length - r3.length + a + oq + j)
          | none => none

/-- Matcher for `\bchat_?id:\s*\d+\b` (case-insensitive, line 66). -/
def chatIdM : Matcher := fun prev s =>
  if optWord prev then none
  else
    match eatCI ['c', 'h', 'a', 't'] s with
    | none => none
    | some r1 =>
      let r2 := eatUnderscoreOpt r1
      match eatCI ['i', 'd', ':'] r2 with
      | none => none
      | some r3 =>
        let a := countWhile jsSpace r3
        let t := r3.drop a
        let k := countWhile isDigitChar t
        if 1 ≤ k && !(optWord t[k]?) then some (s.length - r3.length + a + k) else none

/-- Substring (contiguous) containment test over character lists. -/
def hasInfix (needle : List Char) : List Char → Bool
  | [] => (eatExact needle []).isSome
  | c :: cs => (eatExact needle (c :: cs)).isSome || hasInfix needle cs

/-- The four quoted keys recognized by the first JSON-artifact pattern. -/
def jsonKeys : List (List Char) :=
  [['"', 'i', 'd', '"'], ['"', 'u', 's', 'e', 'r', '"'],
   ['"', 'c', 'h', 'a', 't', '"'], ['"', 'm', 'e', 's', 's', 'a', 'g', 'e', '"']]

/-- Matcher for `\{[^{}]*"(?:id|user|chat|message)"[^{}]*\}` (line 73): a
brace-free span opened by a brace, closed by a closing brace, containing
one of the quoted keys. -/
def json1M : Matcher := fun _ s =>
  match s with
  | '{' :: t =>
    let span := t.takeWhile (fun c => !(c = '{' || c = '}'))
    match t[span.length]? with
    | some '}' =>
      if jsonKeys.any (fun k => hasInfix k span) then some (span.length + 2) else none
    | _ => none
  | _ => none

/-- Characters of `s` with trailing `\s` characters removed
(for the `\}\s*\]` tail of the small-array pattern). -/
def dropTrailingWs (s : List Char) : List Char :=
  (s.reverse.dropWhile jsSpace).reverse

/-- Matcher for `\[\s*\{[^[\]]*\}\s*\]` (line 74): a bracketed span whose
inner square-bracket-free content starts with a brace after optional
whitespace and whose last non-whitespace character is a closing brace. -/
def json2M : Matcher := fun _ s =>
  match s with
  | '[' :: t =>
    let a := countWhile jsSpace t
    match t[a]? with
    | some '{' =>
      let u := t.drop (a + 1)
      let span := u.takeWhile (fun c => !(c = '[' || c = ']'))
      match u[span.length]? with
      | some ']' =>
        let w := dropTrailingWs span
        if w.getLast? = some '}' then some (1 + a + 1 + span.length + 1) else none
      | _ => none
    | _ => none
  | _ => none

/-- The recognized platform names of `CHANNEL_METADATA_PATTERN`
(`src/sanitize-query.ts` lines 47-48), in alternation order. -/
def platforms : List (List Char) :=
  ["Telegram".data, "Discord".data, "Slack".data, "Signal".data, "WhatsApp".data,
   "iMessage".data, "SMS".data, "Matrix".data, "Teams".data, "Zalo".data,
   "Web".data, "WebChat".data, "Google Chat".data, "BlueBubbles".data,
   "Zalo Personal".data]

/-- First platform name (in alternation order) that is a case-insensitive
prefix of `t`, returning its length. -/
def firstPlatform (t : List Char) : Option Nat :=
  platforms.foldl
    (fun acc p => match acc with
      | some n => some n
      | none => match eatCI p t with
        | some _ => some p.length
        | none => none)
    none

/-- Length of the match of the anchored pattern
`^\s*\[(?:Telegram|...)[^\]]*\]\s*` (case-insensitive) at the start of
`s`, if it matches: leading whitespace, an opening bracket, a platform
name, everything up to the first closing bracket, the bracket, trailing
whitespace. -/
def envMatchLen (s : List Char) : Option Nat :=
  let a := countWhile jsSpace s
  match s[a]? with
  | some '[' =>
    let t := s.drop (a + 1)
    match firstPlatform t with
    | some plen =>
      let w := t.drop plen
      let b := countWhile (fun c => !(c = ']')) w
      match w[b]? with
      | some ']' =>
        let c := countWhile jsSpace (w.drop (b + 1))
        some (a + 1 + plen + b + 1 + c)
      | _ => none
    | none => none
  | _ => none

/-- The fallback `stripChannelEnvelope` of `src/sanitize-query.ts`
lines 81-88: remove the first (anchored) envelope match, if any. -/
def stripChannelEnvelope (s : List Char) : List Char :=
  match envMatchLen s with
  | some n => s.drop n
  | none => s

/-- Scan for a match of `m` anywhere in `s` (`RegExp.prototype.test`
restarted at index 0), threading the original preceding character for the
`\b` look-behind. -/
def hasMatchAux (m : Matcher) : Option Char → List Char → Bool
  | prev, [] => (m prev []).isSome
  | prev, c :: cs => (m prev (c :: cs)).isSome || hasMatchAux m (some c) cs

/-- Does `m` match anywhere in `s`, scanning from the start? -/
def hasMatch (m : Matcher) (s : List Char) : Bool :=
  hasMatchAux m none s

/-- Position and length of the leftmost match of `m`, scanning from the
current position. -/
def firstMatchLen (m : Matcher) : Option Char → List Char → Option (Nat × Nat)
  | prev, [] => (m prev []).map (fun n => (0, n))
  | prev, c :: cs =>
    match m prev (c :: cs) with
    | some n => some (0, n)
    | none => (firstMatchLen m (some c) cs).map (fun pn => (pn.1 + 1, pn.2))

/-- One pass of `String.prototype.replace` with a global regex: find
non-overlapping leftmost matches of `m` left to right and replace each
with `r`.  Matching is done against the original characters (the `\b`
look-behind after a match sees the last original matched character).  The
`fuel` argument only serves termination; it is instantiated with the
length of the string, which the recursion never exhausts. -/
def replaceAllAux (m : Matcher) (r : List Char) : Nat → Option Char → List Char → List Char
  | 0, _, s => s
  | _ + 1, _, [] => []
  | fuel + 1, prev, c :: cs =>
    match m prev (c :: cs) with
    | some n =>
      let n' := max n 1
      r ++ replaceAllAux m r fuel (((c :: cs).take n').getLast?) ((c :: cs).drop n')
    | none => c :: replaceAllAux m r fuel (some c) cs

/-- Replace every match of `m` in `s` by `r` (JavaScript
`s.replace(pattern, r)` with a global pattern). -/
def replaceAll (m : Matcher) (r : List Char) (s : List Char) : List Char :=
  replaceAllAux m r s.length none s

/-- The `TIMESTAMP_PATTERNS` loop of `sanitizeQuery` (lines 110-112):
three sequential replacements by a single space. -/
def applyTimestamps (s : List Char) : List Char :=
  replaceAll relM [' '] (replaceAll unixM [' '] (replaceAll isoM [' '] s))

/-- The `USER_ID_PATTERNS` loop of `sanitizeQuery` (lines 115-117). -/
def applyIdPatterns (s : List Char) : List Char :=
  replaceAll chatIdM [' '] (replaceAll userIdM [' '] (replaceAll idM [' '] s))

/-- The `JSON_ARTIFACT_PATTERNS` loop of `sanitizeQuery` (lines 120-122). -/
def applyJsonPatterns (s : List Char) : List Char :=
  replaceAll json2M [' '] (replaceAll json1M [' '] s)

/-- Streaming form of the whitespace-collapse replacement
`replace(/\s+/g, " ")` of `sanitizeQuery` line 125: every maximal
whitespace run becomes one space.  The Boolean records whether the scan
stands inside a whitespace run whose space was already emitted. -/
def collapseWsAux : Bool → List Char → List Char
  | _, [] => []
  | inRun, c :: cs =>
    if jsSpace c then
      if inRun then collapseWsAux true cs else ' ' :: collapseWsAux true cs
    else c :: collapseWsAux false cs

/-- The whitespace-collapse replacement of `sanitizeQuery` line 125. -/
def collapseWs (s : List Char) : List Char :=
  collapseWsAux false s

/-- JavaScript `String.prototype.trim`: strip whitespace at both ends. -/
def trimWs (s : List Char) : List Char :=
  dropTrailingWs (s.dropWhile jsSpace)

/-- The sanitization pipeline of `sanitizeQuery` (lines 104-127) on a
non-empty string: envelope strip, the three pattern-family loops in
order, then whitespace collapse and trim. -/
def sanitizeCore (s : List Char) : List Char :=
  trimWs (collapseWs (applyJsonPatterns (applyIdPatterns (applyTimestamps (stripChannelEnvelope s)))))

/-- The exported `sanitizeQuery` of `src/sanitize-query.ts` lines 99-128,
restricted to string input (the non-string guard is modelled by
`sanitizeQueryJs` below): falsy (empty) input yields the empty string,
otherwise the pipeline runs. -/
def sanitizeQuery (q : String) : String :=
  if q = "" then "" else ⟨sanitizeCore q.data⟩

/-- The exported `needsSanitization` of `src/sanitize-query.ts` lines
134-166, restricted to string input: the fallback envelope pattern and
each of the eight global patterns are tested against the original string,
with every global pattern reset to index 0 before its test. -/
def needsSanitization (q : String) : Bool :=
  if q = "" then false
  else
    (envMatchLen q.data).isSome ||
    hasMatch isoM q.data || hasMatch unixM q.data || hasMatch relM q.data ||
    hasMatch idM q.data || hasMatch userIdM q.data || hasMatch chatIdM q.data ||
    hasMatch json1M q.data || hasMatch json2M q.data

/-- The `lastIndex` properties of the eight module-level global regexes of
`src/sanitize-query.ts` (the anchored envelope pattern is not global and
carries no state). -/
structure PatternState where
  iso : Nat
  unix : Nat
  rel : Nat
  idP : Nat
  uidP : Nat
  cidP : Nat
  j1 : Nat
  j2 : Nat
deriving DecidableEq

/-- JavaScript `RegExp.prototype.test` on a global regex: search from
`lastIndex`; on success set `lastIndex` past the match, on failure reset
it to 0. -/
def jsTestG (m : Matcher) (s : List Char) (lastIndex : Nat) : Bool × Nat :=
  match firstMatchLen m ((s.take lastIndex).getLast?) (s.drop lastIndex) with
  | some pn => (true, lastIndex + pn.1 + pn.2)
  | none => (false, 0)

/-- Stateful embedding of `needsSanitization`: the code sets
`pattern.lastIndex = 0` before each test of a global pattern (lines 145,
152, 159), so each `jsTestG` below is invoked at index 0 whatever the
incoming state. -/
def needsSanitizationSt (st : PatternState) (q : String) : Bool × PatternState :=
  if q = "" then (false, st)
  else if (envMatchLen q.data).isSome then (true, st)
  else
    let r1 := jsTestG isoM q.data 0
    let s1 := { st with iso := r1.2 }
    if r1.1 then (true, s1)
    else
      let r2 := jsTestG unixM q.data 0
      let s2 := { s1 with unix := r2.2 }
      if r2.1 then (true, s2)
      else
        let r3 := jsTestG relM q.data 0
        let s3 := { s2 with rel := r3.2 }
        if r3.1 then (true, s3)
        else
          let r4 := jsTestG idM q.data 0
          let s4 := { s3 with idP := r4.2 }
          if r4.1 then (true, s4)
          else
            let r5 := jsTestG userIdM q.data 0
            let s5 := { s4 with uidP := r5.2 }
            if r5.1 then (true, s5)
            else
              let r6 := jsTestG chatIdM q.data 0
              let s6 := { s5 with cidP := r6.2 }
              if r6.1 then (true, s6)
              else
                let r7 := jsTestG json1M q.data 0
                let s7 := { s6 with j1 := r7.2 }
                if r7.1 then (true, s7)
                else
                  let r8 := jsTestG json2M q.data 0
                  let s8 := { s7 with j2 := r8.2 }
                  (r8.1, s8)

/-- A JavaScript value at the sanitizer boundary, for the defensive guard
`if (!query || typeof query !== "string")` of lines 100-102 and 135-137. -/
inductive JsValue where
  | nullV : JsValue
  | undefinedV : JsValue
  | strV : String → JsValue
  | numV : Int → JsValue
  | boolV : Bool → JsValue
  | objV : JsValue
deriving DecidableEq

/-- JavaScript falsiness of a `JsValue`. -/
def jsFalsy : JsValue → Bool
  | .nullV => true
  | .undefinedV => true
  | .strV s => s = ""
  | .numV n => n = 0
  | .boolV b => !b
  | .objV => false

/-- Does `typeof v === "string"` hold? -/
def jsIsString : JsValue → Bool
  | .strV _ => true
  | _ => false

/-- `sanitizeQuery` on an arbitrary JavaScript value: the guard of lines
100-102 sends falsy or non-string input to the empty string; string input
continues into the pipeline.  The function is total, so the embedded
sanitizer can never raise. -/
def sanitizeQueryJs (v : JsValue) : String :=
  if jsFalsy v || !(jsIsString v) then ""
  else
    match v with
    | .strV s => sanitizeQuery s
    | _ => ""

/-- The plugin configuration of `src/types.ts` (`SupermemoryConfig`),
restricted to the fields the core logic reads.  `mode` and
`containerScope` are kept as raw strings so that unset and unrecognized
values can be expressed; `threshold` and `baseUrl` are opaque
pass-through values never inspected by the logic under verification and
are omitted. -/
structure SupermemoryConfig where
  apiKey : String
  mode : String
  containerTag : Option String
  containerScope : Option String
  autoRecall : Bool
deriving DecidableEq

/-- JavaScript truthiness of an optional string: present and non-empty. -/
def truthyStr : Option String → Bool
  | some s => !(s = "")
  | none => false

/-- The namespace part computed at `src/types.ts` line 297:
`config.containerTag ? containerTag + ":" : ""`. -/
def tagPre (config : SupermemoryConfig) : String :=
  match config.containerTag with
  | some t => if t = "" then "" else t ++ ":"
  | none => ""

/-- `resolveContainerTag` of `src/types.ts` lines 289-321.  The `switch`
sends `"session"` to the session branch and every other scope value
(`"agent"`, unset, unrecognized) to the shared `"agent"`/`default`
branch. -/
def resolveContainerTag (config : SupermemoryConfig)
    (agentId sessionKey : Option String) : Option String :=
  if config.containerScope = some "session" then
    if truthyStr sessionKey then some (tagPre config ++ sessionKey.getD "")
    else if truthyStr agentId then some (tagPre config ++ agentId.getD "")
    else config.containerTag
  else
    if truthyStr agentId then some (tagPre config ++ agentId.getD "")
    else config.containerTag

/-- Outcome of the `before_agent_start` auto-recall handler: either the
handler returns early, or it dispatches a query to the remote search with
a container tag and a result limit. -/
inductive RecallOutcome where
  | skipped : RecallOutcome
  | dispatched : String → Option String → Nat → RecallOutcome
deriving DecidableEq

/-- The decision pipeline of `createBeforeAgentStartHandler`
(`src/hooks.ts` lines 28-67): skip without a client, skip when auto-recall
is disabled or the mode is off, skip empty or short (< 5) raw prompts,
sanitize, skip empty or short (< 3) sanitized queries, then search with
the resolved container tag and limit 5. -/
def beforeAgentStart (clientPresent : Bool) (config : SupermemoryConfig)
    (prompt : String) (agentId sessionKey : Option String) : RecallOutcome :=
  if !clientPresent then .skipped
  else if !config.autoRecall || config.mode = "off" then .skipped
  else if prompt = "" || prompt.length < 5 then .skipped
  else
    let sanitized := sanitizeQuery prompt
    if sanitized = "" || sanitized.length < 3 then .skipped
    else .dispatched sanitized (resolveContainerTag config agentId sessionKey) 5

/-- Modelled from the spec: the ordering asserted by the claim, with the
sanitizer applied to the inbound query before any size or emptiness check
on it (the raw-prompt length gate therefore acts on the sanitized
query). -/
def beforeAgentStartClaimOrder (clientPresent : Bool) (config : SupermemoryConfig)
    (prompt : String) (agentId sessionKey : Option String) : RecallOutcome :=
  if !clientPresent then .skipped
  else if !config.autoRecall || config.mode = "off" then .skipped
  else
    let sanitized := sanitizeQuery prompt
    if sanitized = "" || sanitized.length < 5 then .skipped
    else if sanitized.length < 3 then .skipped
    else .dispatched sanitized (resolveContainerTag config agentId sessionKey) 5

/-- Outcome of a search tool invocation: the too-short refusal (carrying
the original query, as in the tool `details`), or a dispatched search. -/
inductive ToolOutcome where
  | tooShort : String → ToolOutcome
  | searched : String → Option String → Nat → ToolOutcome
deriving DecidableEq

/-- The `execute` pipeline of `createSupermemorySearchTool`
(`src/tools.ts`, sanitizing variant, lines 38-60): sanitize, refuse
queries shorter than 2 after sanitization, then search with the container
tag resolved from the registration-time `agentId` and no session key. -/
def supermemorySearchExecute (config : SupermemoryConfig) (agentId : String)
    (query : String) (limit : Option Nat) : ToolOutcome :=
  let sanitized := sanitizeQuery query
  if sanitized = "" || sanitized.length < 2 then .tooShort query
  else .searched sanitized (resolveContainerTag config (some agentId) none) (limit.getD 5)

/-- The `execute` pipeline of `createMemorySearchTool` (`src/tools.ts`,
sanitizing variant, lines 110-132), identical to `supermemorySearchExecute`
up to the reported message strings. -/
def memorySearchExecute (config : SupermemoryConfig) (agentId : String)
    (query : String) (limit : Option Nat) : ToolOutcome :=
  let sanitized := sanitizeQuery query
  if sanitized = "" || sanitized.length < 2 then .tooShort query
  else .searched sanitized (resolveContainerTag config (some agentId) none) (limit.getD 5)

/-- Chunk of a document search result (`src/types.ts`).  The numeric
score type is kept as an opaque parameter: the flattening never inspects
it. -/
structure SupermemoryChunk (σ : Type) where
  content : String
  score : σ
  isRelevant : Option Bool
deriving DecidableEq

/-- Document result of `POST /v3/search` (`src/types.ts`); `μ` is the
opaque metadata type.  `chunks` is optional to model the defensive
`doc.chunks ?? []` of the client. -/
structure SupermemoryDocumentResult (σ μ : Type) where
  documentId : String
  title : Option String
  docType : Option String
  score : σ
  chunks : Option (List (SupermemoryChunk σ))
  metadata : Option μ
deriving DecidableEq

/-- Flattened search result (`src/types.ts`). -/
structure SupermemorySearchResult (σ μ : Type) where
  id : String
  content : String
  score : σ
  metadata : Option μ
deriving DecidableEq

/-- Response of `POST /v3/search`; `results` is optional to model the
defensive `data.results ?? []`. -/
structure SupermemorySearchResponse (σ μ : Type) where
  results : Option (List (SupermemoryDocumentResult σ μ))
  total : Option Nat
deriving DecidableEq

/-- The flattening loop of `SupermemoryClient.search`
(`src/supermemory-client.ts` lines 433-446): for each document in
response order, for each chunk in its given order, push one flat entry
carrying the document id and metadata with the chunk content and score. -/
def searchFlatten {σ μ : Type} (data : SupermemorySearchResponse σ μ) :
    List (SupermemorySearchResult σ μ) :=
  (data.results.getD []).foldl
    (fun acc doc =>
      (doc.chunks.getD []).foldl
        (fun acc2 c => acc2 ++ [⟨doc.documentId, c.content, c.score, doc.metadata⟩])
        acc)
    []

/-- Modelled from the spec: the flat per-chunk match list in exactly the
remote order, documents in response order and chunks in document order,
with no re-sorting. -/
def searchFlattenSpec {σ μ : Type} (data : SupermemorySearchResponse σ μ) :
    List (SupermemorySearchResult σ μ) :=
  (data.results.getD []).flatMap
    (fun doc => (doc.chunks.getD []).map
      (fun c => ⟨doc.documentId, c.content, c.score, doc.metadata⟩))

/-- Modelled from the spec: the session branch of the resolver exactly as
the claim words it — `prefix + sessionKey` for a present non-empty
session key, else `prefix + agentId` for a present non-empty agent id,
else the bare `containerTag` (absent when unset), where the prefix is
`containerTag + ":"` when the tag is set and non-empty and empty
otherwise. -/
def sessionScopeSpec (containerTag : Option String)
    (agentId sessionKey : Option String) : Option String :=
  let pre : String :=
    match containerTag with
    | some t => if t = "" then "" else t ++ ":"
    | none => ""
  match sessionKey with
  | some sk =>
    if sk = "" then
      match agentId with
      | some a => if a = "" then containerTag else some (pre ++ a)
      | none => containerTag
    else some (pre ++ sk)
  | none =>
    match agentId with
    | some a => if a = "" then containerTag else some (pre ++ a)
    | none => containerTag

/-- Modelled from the spec: the agent branch of the resolver as the claim
words it — `prefix + agentId` for a present non-empty agent id, else the
bare `containerTag` (absent when unset). -/
def agentScopeSpec (containerTag : Option String)
    (agentId : Option String) : Option String :=
  let pre : String :=
    match containerTag with
    | some t => if t = "" then "" else t ++ ":"
    | none => ""
  match agentId with
  | some a => if a = "" then containerTag else some (pre ++ a)
  | none => containerTag

/-! Length bounds for the parsing helpers and matchers. -/

theorem countWhile_le (p : Char → Bool) (s : List Char) : countWhile p s ≤ s.length :=
  (List.takeWhile_prefix p).length_le

theorem eatCI_length {pat s r : List Char} (h : eatCI pat s = some r) :
    r.length + pat.length = s.length := by
  induction pat generalizing s with
  | nil => simp [eatCI] at h; simp [h]
  | cons c cs ih =>
    cases s with
    | nil => simp [eatCI] at h
    | cons x xs =>
      simp only [eatCI] at h
      split at h
      · have := ih h
        simp only [List.length_cons]
        omega
      · exact absurd h (by simp)

theorem eatExact_length {pat s r : List Char} (h : eatExact pat s = some r) :
    r.length + pat.length = s.length := by
  induction pat generalizing s with
  | nil => simp [eatExact] at h; simp [h]
  | cons c cs ih =>
    cases s with
    | nil => simp [eatExact] at h
    | cons x xs =>
      simp only [eatExact] at h
      split at h
      · have := ih h
        simp only [List.length_cons]
        omega
      · exact absurd h (by simp)

theorem pCount_length {p : Char → Bool} {n : Nat} {s r : List Char}
    (h : pCount p n s = some r) : r.length + n = s.length := by
  induction n generalizing s with
  | zero => simp [pCount] at h; simp [h]
  | succ n ih =>
    cases s with
    | nil => simp [pCount] at h
    | cons x xs =>
      simp only [pCount] at h
      split at h
      · have := ih h
        simp only [List.length_cons]
        omega
      · exact absurd h (by simp)

theorem pCh_length {p : Char → Bool} {s r : List Char} (h : pCh p s = some r) :
    r.length + 1 = s.length := by
  cases s with
  | nil => simp [pCh] at h
  | cons x xs =>
    simp only [pCh] at h
    split at h
    · simp at h; simp [h]
    · exact absurd h (by simp)

theorem pOptSeconds_le (s : List Char) : (pOptSeconds s).length ≤ s.length := by
  unfold pOptSeconds
  split
  case h_1 t ht =>
    split
    case h_1 u hu =>
      have h1 := pCh_length ht
      have h2 := pCount_length hu
      omega
    case h_2 => exact Nat.le_refl _
  case h_2 => exact Nat.le_refl _

theorem pOptFrac_le (s : List Char) : (pOptFrac s).length ≤ s.length := by
  unfold pOptFrac
  split
  case h_1 t ht =>
    have h1 := pCh_length ht
    simp only []
    split
    · have : (t.drop (countWhile isDigitChar t)).length ≤ t.length :=
        (List.drop_sublist _ _).length_le
      omega
    · exact Nat.le_refl _
  case h_2 => exact Nat.le_refl _

theorem pOptZone_le (s : List Char) : (pOptZone s).length ≤ s.length := by
  unfold pOptZone
  split
  · exact Nat.le_refl _
  case h_2 c t =>
    split
    · simp
    · split
      · split
        case h_1 u hu =>
          have h1 := pCount_length hu
          split
          case h_1 v hv =>
            have h2 := pCh_length hv
            split
            case h_1 w hw => have h3 := pCount_length hw; simp; omega
            case h_2 =>
              split
              case h_1 w hw => have h3 := pCount_length hw; simp; omega
              case h_2 => exact Nat.le_refl _
          case h_2 =>
            split
            case h_1 w hw => have h3 := pCount_length hw; simp; omega
            case h_2 => exact Nat.le_refl _
        case h_2 => exact Nat.le_refl _
      · exact Nat.le_refl _

theorem parseIso_bound {s r : List Char} (h : parseIso s = some r) :
    r.length + 16 ≤ s.length := by
  simp only [parseIso, Option.bind_eq_bind, Option.bind_eq_some, Option.pure_def,
    Option.some.injEq] at h
  obtain ⟨r1, h1, r2, h2, r3, h3, r4, h4, r5, h5, r6, h6, r7, h7, r8, h8, r9, h9, hr⟩ := h
  have l1 := pCount_length h1
  have l2 := pCh_length h2
  have l3 := pCount_length h3
  have l4 := pCh_length h4
  have l5 := pCount_length h5
  have l6 := pCh_length h6
  have l7 := pCount_length h7
  have l8 := pCh_length h8
  have l9 := pCount_length h9
  have m1 := pOptSeconds_le r9
  have m2 := pOptFrac_le (pOptSeconds r9)
  have m3 := pOptZone_le (pOptFrac (pOptSeconds r9))
  have m4 : ((pOptZone (pOptFrac (pOptSeconds r9))).dropWhile jsSpace).length ≤
      (pOptZone (pOptFrac (pOptSeconds r9))).length :=
    (List.dropWhile_suffix _).length_le
  have m5 : r.length ≤ ((pOptZone (pOptFrac (pOptSeconds r9))).dropWhile jsSpace).length := by
    rw [← hr]
    split
    case h_1 u hu => have := eatExact_length hu; omega
    case h_2 => exact Nat.le_refl _
  omega

theorem getElemQ_lt {α : Type} {l : List α} {i : Nat} {x : α} (h : l[i]? = some x) :
    i < l.length := by
  rcases Nat.lt_or_ge i l.length with h' | h'
  · exact h'
  · rw [List.getElem?_eq_none h'] at h
    exact absurd h (by simp)

theorem eatUnderscoreOpt_le (r : List Char) :
    (eatUnderscoreOpt r).length ≤ r.length ∧ r.length ≤ (eatUnderscoreOpt r).length + 1 := by
  unfold eatUnderscoreOpt
  split <;> simp

/-- A matcher is good when every reported match covers at least two and
at most all remaining characters.  All eight global patterns of the
sanitizer are good; goodness drives the replacement-length lemmas. -/
def GoodMatcher (m : Matcher) : Prop :=
  ∀ prev s n, m prev s = some n → 2 ≤ n ∧ n ≤ s.length

theorem isoM_good : GoodMatcher isoM := by
  intro prev s n h
  unfold isoM at h
  cases hp : parseIso s with
  | none => rw [hp] at h; exact absurd h (by simp)
  | some r =>
    rw [hp] at h
    simp at h
    have := parseIso_bound hp
    omega

theorem unixM_good : GoodMatcher unixM := by
  intro prev s n h
  unfold unixM at h
  split at h
  · exact absurd h (by simp)
  · simp only [] at h
    split at h
    case isTrue hc =>
      simp only [Bool.and_eq_true, decide_eq_true_eq] at hc
      simp only [Option.some.injEq] at h
      subst h
      exact ⟨by omega, countWhile_le _ _⟩
    case isFalse => exact absurd h (by simp)

theorem relM_good : GoodMatcher relM := by
  intro prev s n h
  unfold relM at h
  split at h
  case h_1 t =>
    simp only [] at h
    split at h
    · split at h
      case h_1 u hu =>
        have hk := getElemQ_lt hu
        split at h
        · simp only [Option.some.injEq] at h
          subst h
          simp only [List.length_cons]
          omega
        · exact absurd h (by simp)
      case h_2 => exact absurd h (by simp)
    · exact absurd h (by simp)
  case h_2 => exact absurd h (by simp)

theorem idM_good : GoodMatcher idM := by
  intro prev s n h
  unfold idM at h
  split at h
  · exact absurd h (by simp)
  · split at h
    case h_1 => exact absurd h (by simp)
    case h_2 r hr =>
      have hl := eatCI_length hr
      simp only [List.length_cons, List.length_nil] at hl
      simp only [] at h
      split at h
      case isTrue hc =>
        simp only [Option.some.injEq] at h
        subst h
        have ha := countWhile_le jsSpace r
        have hk := countWhile_le isDigitChar (r.drop (countWhile jsSpace r))
        rw [List.length_drop] at hk
        omega
      case isFalse => exact absurd h (by simp)

theorem uidBack_le {t : List Char} {j0 j : Nat} (h : uidTail.uidBack t j0 = some j) :
    j ≤ j0 := by
  induction j0 with
  | zero => simp [uidTail.uidBack] at h
  | succ j0 ih =>
    unfold uidTail.uidBack at h
    split at h
    · simp only [Option.some.injEq] at h
      omega
    · have := ih h
      omega

theorem uidTail_le {t : List Char} {k j : Nat} (hk : k ≤ t.length)
    (h : uidTail t k = some j) : j ≤ t.length := by
  unfold uidTail at h
  split at h
  case isTrue hc =>
    simp only [Bool.and_eq_true] at hc
    obtain ⟨hq, _⟩ := hc
    cases hgq : t[k]? with
    | none => rw [hgq] at hq; simp at hq
    | some q =>
      have := getElemQ_lt hgq
      simp only [Option.some.injEq] at h
      omega
  case isFalse =>
    split at h
    · simp only [Option.some.injEq] at h
      omega
    · have := uidBack_le h
      omega

theorem openQuoteLen_le (t : List Char) : openQuoteLen t ≤ t.length := by
  unfold openQuoteLen
  split
  · split <;> simp
  · simp

theorem userIdM_good : GoodMatcher userIdM := by
  intro prev s n h
  unfold userIdM at h
  split at h
  · exact absurd h (by simp)
  · split at h
    case h_1 => exact absurd h (by simp)
    case h_2 r1 hr1 =>
      have hl1 := eatCI_length hr1
      simp only [List.length_cons, List.length_nil] at hl1
      simp only [] at h
      split at h
      case h_1 => exact absurd h (by simp)
      case h_2 r3 hr3 =>
        have hl2 := eatCI_length hr3
        simp only [List.length_cons, List.length_nil] at hl2
        have hu := eatUnderscoreOpt_le r1
        split at h
        · exact absurd h (by simp)
        · split at h
          case h_1 j hj =>
            simp only [Option.some.injEq] at h
            subst h
            have ha := countWhile_le jsSpace r3
            have htl : (r3.drop (countWhile jsSpace r3)).length =
                r3.length - countWhile jsSpace r3 := List.length_drop ..
            have hoq1 := openQuoteLen_le (r3.drop (countWhile jsSpace r3))
            have hoq2 : ((r3.drop (countWhile jsSpace r3)).drop
                (openQuoteLen (r3.drop (countWhile jsSpace r3)))).length =
                (r3.drop (countWhile jsSpace r3)).length -
                openQuoteLen (r3.drop (countWhile jsSpace r3)) := List.length_drop ..
            have hkt := countWhile_le isWordHyphen
              ((r3.drop (countWhile jsSpace r3)).drop
                (openQuoteLen (r3.drop (countWhile jsSpace r3))))
            have hjle := uidTail_le hkt hj
            omega
          case h_2 => exact absurd h (by simp)

theorem chatIdM_good : GoodMatcher chatIdM := by
  intro prev s n h
  unfold chatIdM at h
  split at h
  · exact absurd h (by simp)
  · split at h
    case h_1 => exact absurd h (by simp)
    case h_2 r1 hr1 =>
      have hl1 := eatCI_length hr1
      simp only [List.length_cons, List.length_nil] at hl1
      simp only [] at h
      split at h
      case h_1 => exact absurd h (by simp)
      case h_2 r3 hr3 =>
        have hl2 := eatCI_length hr3
        simp only [List.length_cons, List.length_nil] at hl2
        have hu := eatUnderscoreOpt_le r1
        split at h
        case isTrue hc =>
          simp only [Option.some.injEq] at h
          subst h
          have ha := countWhile_le jsSpace r3
          have hk := countWhile_le isDigitChar (r3.drop (countWhile jsSpace r3))
          rw [List.length_drop] at hk
          omega
        case isFalse => exact absurd h (by simp)

theorem json1M_good : GoodMatcher json1M := by
  intro prev s n h
  unfold json1M at h
  split at h
  case h_1 t =>
    simp only [] at h
    split at h
    case h_1 hg =>
      have := getElemQ_lt hg
      split at h
      · simp only [Option.some.injEq] at h
        subst h
        simp only [List.length_cons]
        omega
      · exact absurd h (by simp)
    case h_2 => exact absurd h (by simp)
  case h_2 => exact absurd h (by simp)

theorem json2M_good : GoodMatcher json2M := by
  intro prev s n h
  unfold json2M at h
  split at h
  case h_1 t =>
    simp only [] at h
    split at h
    case h_1 hg =>
      have ha := getElemQ_lt hg
      split at h
      case h_1 hg2 =>
        have hsp := getElemQ_lt hg2
        rw [List.length_drop] at hsp
        split at h
        · simp only [Option.some.injEq] at h
          subst h
          simp only [List.length_cons]
          omega
        · exact absurd h (by simp)
      case h_2 => exact absurd h (by simp)
    case h_2 => exact absurd h (by simp)
  case h_2 => exact absurd h (by simp)

theorem envMatchLen_pos {s : List Char} {n : Nat} (h : envMatchLen s = some n) :
    1 ≤ n ∧ s ≠ [] := by
  unfold envMatchLen at h
  simp only [] at h
  split at h
  case h_1 hg =>
    have := getElemQ_lt hg
    constructor
    · split at h
      · split at h
        case h_1 hg2 =>
          simp only [Option.some.injEq] at h
          omega
        case h_2 => exact absurd h (by simp)
      · exact absurd h (by simp)
    · intro hs
      subst hs
      simp at this
  case h_2 => exact absurd h (by simp)

/-! Behaviour of the single-pass global replacement. -/

theorem replaceAllAux_no_match {m : Matcher} {r : List Char} :
    ∀ (fuel : Nat) (prev : Option Char) (s : List Char), s.length ≤ fuel →
      hasMatchAux m prev s = false → replaceAllAux m r fuel prev s = s := by
  intro fuel
  induction fuel with
  | zero => intro prev s _ _; cases s <;> rfl
  | succ fuel ih =>
    intro prev s hlen hno
    cases s with
    | nil => rfl
    | cons c cs =>
      simp only [hasMatchAux, Bool.or_eq_false_iff] at hno
      obtain ⟨h1, h2⟩ := hno
      unfold replaceAllAux
      cases hm : m prev (c :: cs) with
      | some n => rw [hm] at h1; exact absurd h1 (by simp)
      | none =>
        simp only []
        rw [ih (some c) cs (by simpa using Nat.le_of_succ_le_succ (by simpa using hlen)) h2]

theorem replaceAll_no_match {m : Matcher} {r s : List Char}
    (h : hasMatch m s = false) : replaceAll m r s = s :=
  replaceAllAux_no_match s.length none s (Nat.le_refl _) h

theorem replaceAllAux_length_le {m : Matcher} (hm : GoodMatcher m) :
    ∀ (fuel : Nat) (prev : Option Char) (s : List Char), s.length ≤ fuel →
      (replaceAllAux m [' '] fuel prev s).length ≤ s.length := by
  intro fuel
  induction fuel with
  | zero => intro prev s _; cases s <;> simp [replaceAllAux]
  | succ fuel ih =>
    intro prev s hlen
    cases s with
    | nil => simp [replaceAllAux]
    | cons c cs =>
      unfold replaceAllAux
      cases hmm : m prev (c :: cs) with
      | some n =>
        simp only []
        obtain ⟨hn2, hnl⟩ := hm prev (c :: cs) n hmm
        have hmax : max n 1 = n := Nat.max_eq_left (by omega)
        rw [hmax]
        have hdl : ((c :: cs).drop n).length = (c :: cs).length - n := List.length_drop ..
        have hrec := ih (((c :: cs).take n).getLast?) ((c :: cs).drop n)
          (by simp only [List.length_cons] at *; omega)
        simp only [List.length_append, List.length_cons, List.length_nil] at *
        omega
      | none =>
        simp only [List.length_cons]
        have hrec := ih (some c) cs (by simp only [List.length_cons] at hlen; omega)
        simpa using Nat.succ_le_succ hrec

theorem replaceAllAux_length_lt {m : Matcher} (hm : GoodMatcher m) :
    ∀ (fuel : Nat) (prev : Option Char) (s : List Char), s.length ≤ fuel →
      hasMatchAux m prev s = true →
      (replaceAllAux m [' '] fuel prev s).length < s.length := by
  intro fuel
  induction fuel with
  | zero =>
    intro prev s hlen hyes
    have hs : s = [] := List.length_eq_zero.mp (Nat.le_zero.mp hlen)
    subst hs
    simp only [hasMatchAux] at hyes
    cases hmm : m prev [] with
    | none => rw [hmm] at hyes; exact absurd hyes (by simp)
    | some n =>
      obtain ⟨hn2, hnl⟩ := hm prev [] n hmm
      simp at hnl
      omega
  | succ fuel ih =>
    intro prev s hlen hyes
    cases s with
    | nil =>
      simp only [hasMatchAux] at hyes
      cases hmm : m prev [] with
      | none => rw [hmm] at hyes; exact absurd hyes (by simp)
      | some n =>
        obtain ⟨hn2, hnl⟩ := hm prev [] n hmm
        simp at hnl
        omega
    | cons c cs =>
      unfold replaceAllAux
      cases hmm : m prev (c :: cs) with
      | some n =>
        simp only []
        obtain ⟨hn2, hnl⟩ := hm prev (c :: cs) n hmm
        have hmax : max n 1 = n := Nat.max_eq_left (by omega)
        rw [hmax]
        have hdl : ((c :: cs).drop n).length = (c :: cs).length - n := List.length_drop ..
        have hrec := replaceAllAux_length_le hm fuel (((c :: cs).take n).getLast?)
          ((c :: cs).drop n) (by simp only [List.length_cons] at *; omega)
        simp only [List.length_append, List.length_cons, List.length_nil] at *
        omega
      | none =>
        simp only [hasMatchAux, hmm, Option.isSome_none, Bool.false_or] at hyes
        simp only [List.length_cons]
        have hrec := ih (some c) cs (by simp only [List.length_cons] at hlen; omega) hyes
        simpa using Nat.succ_lt_succ hrec

theorem replaceAll_length_le {m : Matcher} (hm : GoodMatcher m) (s : List Char) :
    (replaceAll m [' '] s).length ≤ s.length :=
  replaceAllAux_length_le hm s.length none s (Nat.le_refl _)

theorem replaceAll_length_lt {m : Matcher} (hm : GoodMatcher m) {s : List Char}
    (h : hasMatch m s = true) : (replaceAll m [' '] s).length < s.length :=
  replaceAllAux_length_lt hm s.length none s (Nat.le_refl _) h

theorem replaceAll_ne_iff {m : Matcher} (hm : GoodMatcher m) (s : List Char) :
    (replaceAll m [' '] s ≠ s) ↔ hasMatch m s = true := by
  constructor
  · intro hne
    cases hb : hasMatch m s with
    | false => exact absurd (replaceAll_no_match hb) hne
    | true => rfl
  · intro hyes
    have := replaceAll_length_lt hm hyes
    intro he
    rw [he] at this
    exact Nat.lt_irrefl _ this

theorem stripChannelEnvelope_ne_iff (s : List Char) :
    (stripChannelEnvelope s ≠ s) ↔ (envMatchLen s).isSome = true := by
  unfold stripChannelEnvelope
  cases he : envMatchLen s with
  | none => simp
  | some n =>
    obtain ⟨hn, hne⟩ := envMatchLen_pos he
    simp only [Option.isSome_some, iff_true]
    intro hd
    have h1 : (s.drop n).length = s.length - n := List.length_drop ..
    have h2 : 1 ≤ s.length := by
      cases s with
      | nil => exact absurd rfl hne
      | cons c cs => simp
    rw [hd] at h1
    omega

theorem applyTimestamps_ne_iff (s : List Char) :
    (applyTimestamps s ≠ s) ↔
      (hasMatch isoM s || hasMatch unixM s || hasMatch relM s) = true := by
  unfold applyTimestamps
  cases h1 : hasMatch isoM s with
  | true =>
    have l1 := replaceAll_length_lt isoM_good h1
    have l2 := replaceAll_length_le unixM_good (replaceAll isoM [' '] s)
    have l3 := replaceAll_length_le relM_good (replaceAll unixM [' '] (replaceAll isoM [' '] s))
    simp only [h1, Bool.true_or, iff_true]
    intro he
    rw [he] at l3
    omega
  | false =>
    rw [replaceAll_no_match h1]
    cases h2 : hasMatch unixM s with
    | true =>
      have l2 := replaceAll_length_lt unixM_good h2
      have l3 := replaceAll_length_le relM_good (replaceAll unixM [' '] s)
      simp only [h2, Bool.true_or, Bool.or_true, iff_true]
      intro he
      rw [he] at l3
      omega
    | false =>
      rw [replaceAll_no_match h2]
      cases h3 : hasMatch relM s with
      | true =>
        have l3 := replaceAll_length_lt relM_good h3
        simp only [h3, Bool.or_true, iff_true]
        intro he
        rw [he] at l3
        omega
      | false =>
        rw [replaceAll_no_match h3]
        simp

theorem applyIdPatterns_ne_iff (s : List Char) :
    (applyIdPatterns s ≠ s) ↔
      (hasMatch idM s || hasMatch userIdM s || hasMatch chatIdM s) = true := by
  unfold applyIdPatterns
  cases h1 : hasMatch idM s with
  | true =>
    have l1 := replaceAll_length_lt idM_good h1
    have l2 := replaceAll_length_le userIdM_good (replaceAll idM [' '] s)
    have l3 := replaceAll_length_le chatIdM_good (replaceAll userIdM [' '] (replaceAll idM [' '] s))
    simp only [h1, Bool.true_or, iff_true]
    intro he
    rw [he] at l3
    omega
  | false =>
    rw [replaceAll_no_match h1]
    cases h2 : hasMatch userIdM s with
    | true =>
      have l2 := replaceAll_length_lt userIdM_good h2
      have l3 := replaceAll_length_le chatIdM_good (replaceAll userIdM [' '] s)
      simp only [h2, Bool.true_or, Bool.or_true, iff_true]
      intro he
      rw [he] at l3
      omega
    | false =>
      rw [replaceAll_no_match h2]
      cases h3 : hasMatch chatIdM s with
      | true =>
        have l3 := replaceAll_length_lt chatIdM_good h3
        simp only [h3, Bool.or_true, iff_true]
        intro he
        rw [he] at l3
        omega
      | false =>
        rw [replaceAll_no_match h3]
        simp

theorem applyJsonPatterns_ne_iff (s : List Char) :
    (applyJsonPatterns s ≠ s) ↔ (hasMatch json1M s || hasMatch json2M s) = true := by
  unfold applyJsonPatterns
  cases h1 : hasMatch json1M s with
  | true =>
    have l1 := replaceAll_length_lt json1M_good h1
    have l2 := replaceAll_length_le json2M_good (replaceAll json1M [' '] s)
    simp only [h1, Bool.true_or, iff_true]
    intro he
    rw [he] at l2
    omega
  | false =>
    rw [replaceAll_no_match h1]
    cases h2 : hasMatch json2M s with
    | true =>
      have l2 := replaceAll_length_lt json2M_good h2
      simp only [h2, Bool.or_true, iff_true]
      intro he
      rw [he] at l2
      omega
    | false =>
      rw [replaceAll_no_match h2]
      simp


/-! Whitespace-normalization invariants: the collapse-and-trim tail of the
pipeline produces a string with single spaces and no edge whitespace,
fixed by another collapse-and-trim. -/

/-- No two adjacent whitespace characters. -/
def NoWsPair (s : List Char) : Prop :=
  List.Chain' (fun a b => ¬(jsSpace a = true ∧ jsSpace b = true)) s

/-- Every whitespace character is a plain space. -/
def WsOnlySpace (s : List Char) : Prop :=
  ∀ c ∈ s, jsSpace c = true → c = ' '

theorem head?_dropWhile_not {p : Char → Bool} :
    ∀ {s : List Char} {b : Char}, (s.dropWhile p).head? = some b → p b = false := by
  intro s
  induction s with
  | nil => intro b h; simp at h
  | cons c cs ih =>
    intro b h
    rw [List.dropWhile_cons] at h
    by_cases hc : p c
    · rw [if_pos hc] at h
      exact ih h
    · rw [if_neg hc] at h
      simp only [List.head?_cons, Option.some.injEq] at h
      subst h
      simpa using hc

theorem collapseWsAux_true_head {s : List Char} {y : Char}
    (h : (collapseWsAux true s).head? = some y) : jsSpace y = false := by
  induction s with
  | nil => simp [collapseWsAux] at h
  | cons c cs ih =>
    rw [collapseWsAux] at h
    by_cases hc : jsSpace c
    · rw [if_pos hc, if_pos rfl] at h
      exact ih h
    · rw [if_neg hc] at h
      simp only [List.head?_cons, Option.some.injEq] at h
      subst h
      simpa using hc

theorem noWsPair_collapseWsAux : ∀ (b : Bool) (s : List Char), NoWsPair (collapseWsAux b s) := by
  intro b s
  induction s generalizing b with
  | nil => simp [collapseWsAux, NoWsPair]
  | cons c cs ih =>
    rw [collapseWsAux]
    by_cases hc : jsSpace c
    · rw [if_pos hc]
      cases b with
      | true => exact ih true
      | false =>
        rw [if_neg (by simp)]
        rw [NoWsPair, List.chain'_cons']
        refine ⟨?_, ih true⟩
        intro y hy h2
        rw [collapseWsAux_true_head hy] at h2
        exact absurd h2.2 (by simp)
    · rw [if_neg hc]
      rw [NoWsPair, List.chain'_cons']
      refine ⟨?_, ih false⟩
      intro y _ h2
      exact hc h2.1

theorem wsOnlySpace_collapseWsAux : ∀ (b : Bool) (s : List Char),
    WsOnlySpace (collapseWsAux b s) := by
  intro b s
  induction s generalizing b with
  | nil => simp [collapseWsAux, WsOnlySpace]
  | cons c cs ih =>
    rw [collapseWsAux]
    by_cases hc : jsSpace c
    · rw [if_pos hc]
      cases b with
      | true => exact ih true
      | false =>
        rw [if_neg (by simp)]
        intro x hx hws
        rcases List.mem_cons.mp hx with h | h
        · exact h
        · exact ih true x h hws
    · rw [if_neg hc]
      intro x hx hws
      rcases List.mem_cons.mp hx with h | h
      · subst h; exact absurd hws (by simpa using hc)
      · exact ih false x h hws

theorem collapseWsAux_fixed : ∀ (s : List Char), NoWsPair s → WsOnlySpace s →
    collapseWsAux false s = s ∧
    ((∀ y, s.head? = some y → jsSpace y = false) → collapseWsAux true s = s) := by
  intro s
  induction s with
  | nil => exact fun _ _ => ⟨rfl, fun _ => rfl⟩
  | cons c cs ih =>
    intro hpair honly
    have hpair2 : NoWsPair cs := List.Chain'.tail hpair
    have honly2 : WsOnlySpace cs := fun x hx => honly x (List.mem_cons_of_mem c hx)
    obtain ⟨ihf, iht⟩ := ih hpair2 honly2
    by_cases hc : jsSpace c
    · have hcsp : c = ' ' := honly c (by simp) hc
      have hhead : ∀ y, cs.head? = some y → jsSpace y = false := by
        intro y hy
        rw [NoWsPair, List.chain'_cons'] at hpair
        have := hpair.1 y (by rw [hy]; simp)
        by_contra hyy
        exact this ⟨hc, by simpa using hyy⟩
      constructor
      · rw [collapseWsAux, if_pos hc, if_neg (by simp)]
        rw [iht hhead, hcsp]
      · intro hh
        have := hh c (by simp)
        rw [hc] at this
        exact absurd this (by simp)
    · constructor
      · rw [collapseWsAux, if_neg hc, ihf]
      · intro _
        rw [collapseWsAux, if_neg hc, ihf]

theorem collapseWs_fixed {s : List Char} (h1 : NoWsPair s) (h2 : WsOnlySpace s) :
    collapseWs s = s :=
  (collapseWsAux_fixed s h1 h2).1

theorem dropTrailingWs_eq_rdrop (s : List Char) :
    dropTrailingWs s = List.rdropWhile jsSpace s := rfl

theorem trimWs_isInfix (s : List Char) : trimWs s <:+: s := by
  unfold trimWs
  rw [dropTrailingWs_eq_rdrop]
  exact ((List.rdropWhile_prefix jsSpace _).isInfix).trans
    ((List.dropWhile_suffix jsSpace).isInfix)

theorem noWsPair_trimWs {s : List Char} (h : NoWsPair s) : NoWsPair (trimWs s) :=
  List.Chain'.infix h (trimWs_isInfix s)

theorem wsOnlySpace_trimWs {s : List Char} (h : WsOnlySpace s) : WsOnlySpace (trimWs s) :=
  fun c hc => h c ((trimWs_isInfix s).subset hc)

theorem trimWs_head {s : List Char} {y : Char} (h : (trimWs s).head? = some y) :
    jsSpace y = false := by
  unfold trimWs at h
  rw [dropTrailingWs_eq_rdrop] at h
  obtain ⟨t, ht⟩ := List.rdropWhile_prefix jsSpace (s.dropWhile jsSpace)
  cases hc : List.rdropWhile jsSpace (s.dropWhile jsSpace) with
  | nil => rw [hc] at h; simp at h
  | cons c cs =>
    rw [hc] at h
    simp only [List.head?_cons, Option.some.injEq] at h
    rw [hc] at ht
    have hy : (s.dropWhile jsSpace).head? = some c := by
      rw [← ht]; simp
    rw [← h]
    exact head?_dropWhile_not hy

theorem trimWs_last {s : List Char} {y : Char} (h : (trimWs s).getLast? = some y) :
    jsSpace y = false := by
  unfold trimWs dropTrailingWs at h
  rw [List.getLast?_reverse] at h
  exact head?_dropWhile_not h

theorem trimWs_fixed {s : List Char}
    (hh : ∀ y, s.head? = some y → jsSpace y = false)
    (hl : ∀ y, s.getLast? = some y → jsSpace y = false) : trimWs s = s := by
  have h1 : s.dropWhile jsSpace = s := by
    cases s with
    | nil => rfl
    | cons c cs =>
      rw [List.dropWhile_cons, if_neg]
      simp [hh c (by simp)]
  unfold trimWs dropTrailingWs
  rw [h1]
  have h2 : s.reverse.dropWhile jsSpace = s.reverse := by
    cases hr : s.reverse with
    | nil => rfl
    | cons c cs =>
      rw [List.dropWhile_cons, if_neg]
      have : s.getLast? = some c := by
        rw [← List.head?_reverse, hr]
        simp
      simp [hl c this]
  rw [h2, List.reverse_reverse]

theorem trimWs_collapseWs_idem (y : List Char) :
    trimWs (collapseWs (trimWs (collapseWs y))) = trimWs (collapseWs y) := by
  have h1 : NoWsPair (trimWs (collapseWs y)) :=
    noWsPair_trimWs (noWsPair_collapseWsAux false y)
  have h2 : WsOnlySpace (trimWs (collapseWs y)) :=
    wsOnlySpace_trimWs (wsOnlySpace_collapseWsAux false y)
  rw [collapseWs_fixed h1 h2]
  exact trimWs_fixed (fun b hb => trimWs_head hb) (fun b hb => trimWs_last hb)

theorem needsSanitization_false_parts {q : String} (hq : ¬(q = ""))
    (h : needsSanitization q = false) :
    envMatchLen q.data = none ∧ hasMatch isoM q.data = false ∧
    hasMatch unixM q.data = false ∧ hasMatch relM q.data = false ∧
    hasMatch idM q.data = false ∧ hasMatch userIdM q.data = false ∧
    hasMatch chatIdM q.data = false ∧ hasMatch json1M q.data = false ∧
    hasMatch json2M q.data = false := by
  unfold needsSanitization at h
  rw [if_neg hq] at h
  simp only [Bool.or_eq_false_iff] at h
  obtain ⟨⟨⟨⟨⟨⟨⟨⟨he, h1⟩, h2⟩, h3⟩, h4⟩, h5⟩, h6⟩, h7⟩, h8⟩ := h
  exact ⟨Option.not_isSome_iff_eq_none.mp (by simp [he]), h1, h2, h3, h4, h5, h6, h7, h8⟩

theorem sanitizeCore_of_clean {s : List Char}
    (henv : envMatchLen s = none)
    (h1 : hasMatch isoM s = false) (h2 : hasMatch unixM s = false)
    (h3 : hasMatch relM s = false) (h4 : hasMatch idM s = false)
    (h5 : hasMatch userIdM s = false) (h6 : hasMatch chatIdM s = false)
    (h7 : hasMatch json1M s = false) (h8 : hasMatch json2M s = false) :
    sanitizeCore s = trimWs (collapseWs s) := by
  unfold sanitizeCore
  have e0 : stripChannelEnvelope s = s := by
    unfold stripChannelEnvelope
    rw [henv]
  rw [e0]
  unfold applyTimestamps applyIdPatterns applyJsonPatterns
  rw [replaceAll_no_match h1, replaceAll_no_match h2, replaceAll_no_match h3,
    replaceAll_no_match h4, replaceAll_no_match h5, replaceAll_no_match h6,
    replaceAll_no_match h7, replaceAll_no_match h8]

theorem foldl_append_singleton {α β : Type} (g : α → β) :
    ∀ (l : List α) (acc : List β),
      l.foldl (fun a c => a ++ [g c]) acc = acc ++ l.map g := by
  intro l
  induction l with
  | nil => intro acc; simp
  | cons x xs ih =>
    intro acc
    simp only [List.foldl_cons, List.map_cons]
    rw [ih]
    simp

theorem foldl_append_blocks {α β : Type} (f : α → List β) :
    ∀ (l : List α) (acc : List β),
      l.foldl (fun a x => a ++ f x) acc = acc ++ l.flatMap f := by
  intro l
  induction l with
  | nil => intro acc; simp
  | cons x xs ih =>
    intro acc
    simp only [List.foldl_cons, List.flatMap_cons]
    rw [ih]
    simp

theorem firstMatchLen_isSome (m : Matcher) :
    ∀ (prev : Option Char) (s : List Char),
      (firstMatchLen m prev s).isSome = hasMatchAux m prev s := by
  intro prev s
  induction s generalizing prev with
  | nil => simp [firstMatchLen, hasMatchAux]
  | cons c cs ih =>
    rw [firstMatchLen, hasMatchAux]
    cases hm : m prev (c :: cs) with
    | some n => simp
    | none => simp [ih (some c)]

theorem jsTestG_zero_fst (m : Matcher) (s : List Char) :
    (jsTestG m s 0).1 = hasMatchAux m none s := by
  unfold jsTestG
  have h0 : ((s.take 0).getLast? : Option Char) = none := by simp
  rw [h0, List.drop_zero]
  cases hf : firstMatchLen m none s with
  | some pn =>
    have := firstMatchLen_isSome m none s
    rw [hf] at this
    simp at this
    simp [← this]
  | none =>
    have := firstMatchLen_isSome m none s
    rw [hf] at this
    simp at this
    simp [← this]

theorem ite_true_or (b : Bool) (c : Bool) : (if b then true else c) = (b || c) := by
  cases b <;> simp

theorem needsSanitizationSt_fst (st : PatternState) (q : String) :
    (needsSanitizationSt st q).1 = needsSanitization q := by
  unfold needsSanitizationSt needsSanitization
  by_cases hq : q = ""
  · rw [if_pos hq, if_pos hq]
  · rw [if_neg hq, if_neg hq]
    by_cases he : (envMatchLen q.data).isSome
    · simp [he]
    · rw [if_neg he]
      simp only [apply_ite (Prod.fst (α := Bool) (β := PatternState))]
      simp only [jsTestG_zero_fst, ite_true_or, hasMatch]
      simp [he, Bool.or_assoc]

/-! Claim theorems. -/

/-- C1: with containerScope "session", resolveContainerTag returns
prefix + sessionKey when the session key is present and non-empty,
otherwise prefix + agentId when the agent id is present and non-empty,
otherwise the bare containerTag (absent when unset), where the prefix is
containerTag + ":" exactly when containerTag is set and non-empty; the
prefix is applied exactly once.  `sessionScopeSpec` is that precedence
written out from the claim. -/
theorem resolveContainerTag_session_spec (config : SupermemoryConfig)
    (agentId sessionKey : Option String)
    (h : config.containerScope = some "session") :
    resolveContainerTag config agentId sessionKey =
      sessionScopeSpec config.containerTag agentId sessionKey := by
  unfold resolveContainerTag sessionScopeSpec tagPre
  rw [if_pos h]
  rcases sessionKey with _ | sk
  · rcases agentId with _ | a
    · simp [truthyStr]
    · by_cases ha : a = "" <;> simp [truthyStr, ha]
  · by_cases hs : sk = ""
    · rcases agentId with _ | a
      · simp [truthyStr, hs]
      · by_cases ha : a = "" <;> simp [truthyStr, hs, ha]
    · simp [truthyStr, hs]

theorem resolveContainerTag_session_spec_witness :
    (SupermemoryConfig.mk "" "tandem" (some "myns") (some "session") true).containerScope =
      some "session" ∧
    resolveContainerTag ⟨"", "tandem", some "myns", some "session", true⟩
        (some "main") (some "agent:main:telegram:group:123") =
      sessionScopeSpec (some "myns") (some "main") (some "agent:main:telegram:group:123") :=
  ⟨rfl, resolveContainerTag_session_spec ⟨"", "tandem", some "myns", some "session", true⟩
    (some "main") (some "agent:main:telegram:group:123") rfl⟩

/-- C2 counterexample: under agent scope with agentId "agent" and no
containerTag, the resolver does return the literal scope string "agent",
so the claim that it never returns the scope literal is false as
stated. -/
theorem resolveContainerTag_scope_literal_cex :
    resolveContainerTag ⟨"", "tandem", none, some "agent", true⟩ (some "agent") none =
      some "agent" := by decide

theorem tagPre_append_eq {config : SupermemoryConfig} {a w : String}
    (hw : ':' ∉ w.data) (h : tagPre config ++ a = w) : a = w := by
  unfold tagPre at h
  split at h
  case h_1 t ht =>
    by_cases h0 : t = ""
    · rw [if_pos h0] at h
      simpa using h
    · rw [if_neg h0] at h
      exfalso
      apply hw
      rw [← h]
      simp
  case h_2 => simpa using h

/-- C2 (amended): the resolver returns the literal scope string only if
one of its inputs is that very string: under agent scope a result of
"agent" forces agentId = "agent" or containerTag = "agent"; under
session scope a result of "session" forces sessionKey = "session",
agentId = "session" or containerTag = "session".  The scope label can
therefore reach the result only through an input, never from the scope
discriminator itself. -/
theorem resolveContainerTag_scope_literal_amended (config : SupermemoryConfig)
    (agentId sessionKey : Option String) :
    (config.containerScope = some "agent" →
      resolveContainerTag config agentId sessionKey = some "agent" →
      agentId = some "agent" ∨ config.containerTag = some "agent") ∧
    (config.containerScope = some "session" →
      resolveContainerTag config agentId sessionKey = some "session" →
      sessionKey = some "session" ∨ agentId = some "session" ∨
        config.containerTag = some "session") := by
  constructor
  · intro hs hr
    unfold resolveContainerTag at hr
    rw [if_neg (by rw [hs]; simp)] at hr
    rcases agentId with _ | a
    · simp only [truthyStr] at hr
      exact Or.inr (by simpa using hr)
    · by_cases ha : a = ""
      · simp [truthyStr, ha] at hr
        exact Or.inr (by simpa using hr)
      · simp [truthyStr, ha] at hr
        exact Or.inl (by rw [tagPre_append_eq (by decide) hr])
  · intro hs hr
    unfold resolveContainerTag at hr
    rw [if_pos hs] at hr
    rcases sessionKey with _ | sk
    · simp only [truthyStr] at hr
      rcases agentId with _ | a
      · simp only [truthyStr] at hr
        exact Or.inr (Or.inr (by simpa using hr))
      · by_cases ha : a = ""
        · simp [truthyStr, ha] at hr
          exact Or.inr (Or.inr (by simpa using hr))
        · simp [truthyStr, ha] at hr
          exact Or.inr (Or.inl (by rw [tagPre_append_eq (by decide) hr]))
    · by_cases hk : sk = ""
      · simp only [truthyStr, hk] at hr
        rcases agentId with _ | a
        · simp only [truthyStr] at hr
          exact Or.inr (Or.inr (by simpa using hr))
        · by_cases ha : a = ""
          · simp [truthyStr, ha] at hr
            exact Or.inr (Or.inr (by simpa using hr))
          · simp [truthyStr, ha] at hr
            exact Or.inr (Or.inl (by rw [tagPre_append_eq (by decide) hr]))
      · simp [truthyStr, hk] at hr
        exact Or.inl (by rw [tagPre_append_eq (by decide) hr])

theorem resolveContainerTag_scope_literal_amended_witness :
    (SupermemoryConfig.mk "" "tandem" none (some "agent") true).containerScope =
      some "agent" ∧
    resolveContainerTag ⟨"", "tandem", none, some "agent", true⟩ (some "agent") none =
      some "agent" ∧
    ((some "agent" : Option String) = some "agent" ∨
      (SupermemoryConfig.mk "" "tandem" none (some "agent") true).containerTag =
        some "agent") :=
  ⟨rfl, by decide, (resolveContainerTag_scope_literal_amended
    ⟨"", "tandem", none, some "agent", true⟩ (some "agent") none).1 rfl (by decide)⟩

/-- C3 counterexample: sanitizeQuery is not idempotent.  On input
"{"id":1}[Telegram x] hi" (braces written by code) the JSON-artifact
removal exposes a channel envelope at the start of the output, so a
second sanitization pass strips it and changes the string again. -/
theorem sanitizeQuery_not_idempotent_cex :
    sanitizeQuery (sanitizeQuery "\x7b\"id\":1\x7d[Telegram x] hi") ≠
      sanitizeQuery "\x7b\"id\":1\x7d[Telegram x] hi" := by decide

/-- C3 (amended): a single sanitization pass is idempotent exactly on the
inputs whose output needs no further sanitization: whenever the sanitized
string triggers none of the pattern families, sanitizing it again is a
no-op (only whitespace normalization remains, and it is idempotent); in
particular sanitizeQuery "  hello   world  " = "hello world" is a fixed
point.  Unconditional idempotence fails because one pass can expose a new
pattern occurrence. -/
theorem sanitizeQuery_idempotent_when_clean (q : String)
    (h : needsSanitization (sanitizeQuery q) = false) :
    sanitizeQuery (sanitizeQuery q) = sanitizeQuery q := by
  by_cases hq : q = ""
  · subst hq
    rfl
  · by_cases hs : sanitizeQuery q = ""
    · rw [hs]
      rfl
    · obtain ⟨he, h1, h2, h3, h4, h5, h6, h7, h8⟩ := needsSanitization_false_parts hs h
      have hq1 : sanitizeQuery q = ⟨sanitizeCore q.data⟩ := by
        rw [sanitizeQuery, if_neg hq]
      have hq2 : sanitizeQuery (sanitizeQuery q) = ⟨sanitizeCore (sanitizeQuery q).data⟩ := by
        rw [sanitizeQuery, if_neg hs]
      rw [hq2, sanitizeCore_of_clean he h1 h2 h3 h4 h5 h6 h7 h8]
      have hdata : (sanitizeQuery q).data = sanitizeCore q.data := by rw [hq1]
      rw [hdata, hq1]
      have hfix : trimWs (collapseWs (sanitizeCore q.data)) = sanitizeCore q.data := by
        unfold sanitizeCore
        exact trimWs_collapseWs_idem _
      rw [hfix]

theorem sanitizeQuery_idempotent_when_clean_witness :
    needsSanitization (sanitizeQuery "  hello   world  ") = false ∧
    sanitizeQuery "  hello   world  " = "hello world" ∧
    sanitizeQuery (sanitizeQuery "  hello   world  ") = sanitizeQuery "  hello   world  " :=
  ⟨by decide, by decide, sanitizeQuery_idempotent_when_clean "  hello   world  " (by decide)⟩

/-- C4 counterexample: the output of sanitizeQuery can still contain a
timestamp.  On "2026-01-27<tab>04:03" no timestamp pattern matches the
raw input (the ISO pattern requires a literal "T" or space separator),
but the final whitespace collapse turns the tab into a space, so the
output "2026-01-27 04:03" matches the ISO timestamp pattern. -/
theorem sanitizeQuery_residual_timestamp_cex :
    sanitizeQuery "2026-01-27\t04:03" = "2026-01-27 04:03" ∧
    hasMatch isoM (sanitizeQuery "2026-01-27\t04:03").data = true := by decide

/-- C4 (amended): whenever the output of a sanitization pass needs no
further sanitization, that output is free of the envelope pattern, the
three timestamp patterns and the three identifier-key patterns.  The
unconditional claim fails: a removal or the whitespace normalization of
the single pass can expose a new occurrence, which then remains in the
output.  The condition is sufficient, not necessary: an output may be
free of these three families and still need sanitization through the
JSON-artifact family, which the claim does not mention. -/
theorem sanitizeQuery_output_clean_when_stable (q : String)
    (h : needsSanitization (sanitizeQuery q) = false) :
    envMatchLen (sanitizeQuery q).data = none ∧
    hasMatch isoM (sanitizeQuery q).data = false ∧
    hasMatch unixM (sanitizeQuery q).data = false ∧
    hasMatch relM (sanitizeQuery q).data = false ∧
    hasMatch idM (sanitizeQuery q).data = false ∧
    hasMatch userIdM (sanitizeQuery q).data = false ∧
    hasMatch chatIdM (sanitizeQuery q).data = false := by
  by_cases hs : sanitizeQuery q = ""
  · rw [hs]
    refine ⟨?_, ?_, ?_, ?_, ?_, ?_, ?_⟩ <;> decide
  · obtain ⟨he, h1, h2, h3, h4, h5, h6, _, _⟩ := needsSanitization_false_parts hs h
    exact ⟨he, h1, h2, h3, h4, h5, h6⟩

theorem sanitizeQuery_output_clean_when_stable_witness :
    needsSanitization (sanitizeQuery "id: 123456 find my preferences") = false ∧
    envMatchLen (sanitizeQuery "id: 123456 find my preferences").data = none :=
  ⟨by decide, (sanitizeQuery_output_clean_when_stable "id: 123456 find my preferences"
    (by decide)).1⟩

/-- C5 counterexample: the auto-recall handler does not sanitize before
every size check: it length-gates the raw prompt (< 5) before applying
the sanitizer.  On "id: 12345 abc" (raw length 13, sanitized "abc" of
length 3) the code dispatches while the claimed sanitize-first ordering
would skip, so the two orderings are observably different. -/
theorem beforeAgentStart_sanitize_order_cex :
    beforeAgentStart true ⟨"k", "tandem", none, none, true⟩ "id: 12345 abc" none none ≠
      beforeAgentStartClaimOrder true ⟨"k", "tandem", none, none, true⟩
        "id: 12345 abc" none none := by decide

/-- C5 (amended): every dispatch to remote search carries the sanitized
query.  The tool handlers sanitize first and size-check only the
sanitized query (< 2); the auto-recall handler first applies an
emptiness/length gate to the raw prompt (< 5), then sanitizes, then
checks the sanitized query (< 3) before dispatching.  No handler ever
dispatches an unsanitized query. -/
theorem handlers_sanitize_before_dispatch :
    (∀ (client : Bool) (config : SupermemoryConfig) (prompt : String)
        (agentId sessionKey : Option String) (q : String) (tag : Option String) (lim : Nat),
      beforeAgentStart client config prompt agentId sessionKey = .dispatched q tag lim →
      q = sanitizeQuery prompt ∧ 3 ≤ q.length ∧ 5 ≤ prompt.length ∧
        tag = resolveContainerTag config agentId sessionKey ∧ lim = 5) ∧
    (∀ (config : SupermemoryConfig) (agentId query : String) (lim : Option Nat)
        (q : String) (tag : Option String) (l : Nat),
      supermemorySearchExecute config agentId query lim = .searched q tag l →
      q = sanitizeQuery query ∧ 2 ≤ q.length ∧
        tag = resolveContainerTag config (some agentId) none) ∧
    (∀ (config : SupermemoryConfig) (agentId query : String) (lim : Option Nat)
        (q : String) (tag : Option String) (l : Nat),
      memorySearchExecute config agentId query lim = .searched q tag l →
      q = sanitizeQuery query ∧ 2 ≤ q.length ∧
        tag = resolveContainerTag config (some agentId) none) := by
  refine ⟨?_, ?_, ?_⟩
  · intro client config prompt agentId sessionKey q tag lim h
    unfold beforeAgentStart at h
    split at h
    · exact absurd h (by simp)
    · split at h
      · exact absurd h (by simp)
      · split at h
        case isTrue => exact absurd h (by simp)
        case isFalse hp =>
          simp only [] at h
          split at h
          case isTrue => exact absurd h (by simp)
          case isFalse hsz =>
            simp only [RecallOutcome.dispatched.injEq] at h
            obtain ⟨hq, htag, hlim⟩ := h
            simp only [Bool.or_eq_true, decide_eq_true_eq, not_or] at hp hsz
            rw [hq] at hsz
            have h5 := hp.2
            have h3 := hsz.2
            exact ⟨hq.symm, by omega, by omega, htag.symm, hlim.symm⟩
  · intro config agentId query lim q tag l h
    unfold supermemorySearchExecute at h
    simp only [] at h
    split at h
    · exact absurd h (by simp)
    case isFalse hsz =>
      simp only [ToolOutcome.searched.injEq] at h
      obtain ⟨hq, htag, _⟩ := h
      simp only [Bool.or_eq_true, decide_eq_true_eq, not_or] at hsz
      rw [hq] at hsz
      have h2 := hsz.2
      exact ⟨hq.symm, by omega, htag.symm⟩
  · intro config agentId query lim q tag l h
    unfold memorySearchExecute at h
    simp only [] at h
    split at h
    · exact absurd h (by simp)
    case isFalse hsz =>
      simp only [ToolOutcome.searched.injEq] at h
      obtain ⟨hq, htag, _⟩ := h
      simp only [Bool.or_eq_true, decide_eq_true_eq, not_or] at hsz
      rw [hq] at hsz
      have h2 := hsz.2
      exact ⟨hq.symm, by omega, htag.symm⟩

theorem handlers_sanitize_before_dispatch_witness :
    beforeAgentStart true ⟨"k", "tandem", none, none, true⟩ "hello world" none none =
      .dispatched "hello world" none 5 ∧
    ("hello world" : String) = sanitizeQuery "hello world" ∧
    3 ≤ ("hello world" : String).length ∧ 5 ≤ ("hello world" : String).length ∧
    (none : Option String) = resolveContainerTag ⟨"k", "tandem", none, none, true⟩ none none ∧
    5 = 5 := by
  refine ⟨by decide, ?_⟩
  have := handlers_sanitize_before_dispatch.1 true ⟨"k", "tandem", none, none, true⟩
    "hello world" none none "hello world" none 5 (by decide)
  exact ⟨this.1, this.2.1, this.2.2.1, this.2.2.2.1, this.2.2.2.2⟩

/-- C6: needsSanitization returns true exactly when applying one of the
four pattern families (envelope strip, timestamp replacements,
identifier replacements, JSON-artifact replacements) to the string would
alter it; and, with the lastIndex state of the global regexes modelled
explicitly, its result does not depend on any leftover iteration state,
because every test is reset to index 0 first. -/
theorem needsSanitization_iff_alters (q : String) :
    (needsSanitization q = true ↔
      (stripChannelEnvelope q.data ≠ q.data ∨ applyTimestamps q.data ≠ q.data ∨
        applyIdPatterns q.data ≠ q.data ∨ applyJsonPatterns q.data ≠ q.data)) ∧
    (∀ st st2 : PatternState,
      (needsSanitizationSt st q).1 = (needsSanitizationSt st2 q).1) ∧
    (∀ st : PatternState, (needsSanitizationSt st q).1 = needsSanitization q) := by
  refine ⟨?_, ?_, fun st => needsSanitizationSt_fst st q⟩
  · by_cases hq : q = ""
    · subst hq
      constructor
      · intro h
        exact absurd h (by decide)
      · intro h
        rcases h with h | h | h | h <;> exact absurd rfl h
    · unfold needsSanitization
      rw [if_neg hq]
      rw [stripChannelEnvelope_ne_iff, applyTimestamps_ne_iff, applyIdPatterns_ne_iff,
        applyJsonPatterns_ne_iff]
      simp only [Bool.or_eq_true]
      tauto
  · intro st st2
    rw [needsSanitizationSt_fst st q, needsSanitizationSt_fst st2 q]

/-- C7: null, undefined, the empty string and every non-string input are
sent to the empty string by the sanitizer guard; the embedding is a total
function, so the sanitizer never raises. -/
theorem sanitizeQueryJs_defensive :
    (∀ v : JsValue, jsIsString v = false → sanitizeQueryJs v = "") ∧
    sanitizeQueryJs (.strV "") = "" ∧ sanitizeQueryJs .nullV = "" ∧
    sanitizeQueryJs .undefinedV = "" := by
  refine ⟨?_, rfl, rfl, rfl⟩
  intro v hv
  unfold sanitizeQueryJs
  rw [if_pos (by simp [hv])]

theorem sanitizeQueryJs_defensive_witness :
    jsIsString (JsValue.numV 7) = false ∧ sanitizeQueryJs (JsValue.numV 7) = "" :=
  ⟨by decide, sanitizeQueryJs_defensive.1 (JsValue.numV 7) (by decide)⟩

/-- C8: for every configuration whose containerScope is anything other
than "session" (including unset and unrecognized values) the resolver
behaves exactly as agent scope: prefix + agentId when the agent id is
present and non-empty, otherwise the bare containerTag.
`agentScopeSpec` is that behaviour written out from the claim. -/
theorem resolveContainerTag_default_agent_scope (config : SupermemoryConfig)
    (agentId sessionKey : Option String)
    (h : config.containerScope ≠ some "session") :
    resolveContainerTag config agentId sessionKey =
      agentScopeSpec config.containerTag agentId := by
  unfold resolveContainerTag agentScopeSpec tagPre
  rw [if_neg h]
  rcases agentId with _ | a
  · simp [truthyStr]
  · by_cases ha : a = "" <;> simp [truthyStr, ha]

theorem resolveContainerTag_default_agent_scope_witness :
    (SupermemoryConfig.mk "" "tandem" (some "myns") (some "unrecognized") true).containerScope ≠
      some "session" ∧
    resolveContainerTag ⟨"", "tandem", some "myns", some "unrecognized", true⟩
        (some "main") (some "sess") =
      agentScopeSpec (some "myns") (some "main") :=
  ⟨by decide, resolveContainerTag_default_agent_scope
    ⟨"", "tandem", some "myns", some "unrecognized", true⟩ (some "main") (some "sess")
    (by decide)⟩

/-- C9: SupermemoryClient.search flattens the remote documents into
per-chunk matches in exactly the remote order — documents in response
order, chunks in their given order, no re-sorting — each flat entry
carrying the owning documentId and metadata with the chunk content and
score.  `searchFlattenSpec` is that flat list written out from the
claim. -/
theorem searchFlatten_preserves_remote_order {σ μ : Type}
    (data : SupermemorySearchResponse σ μ) :
    searchFlatten data = searchFlattenSpec data := by
  unfold searchFlatten searchFlattenSpec
  have hstep : (fun (acc : List (SupermemorySearchResult σ μ))
      (doc : SupermemoryDocumentResult σ μ) =>
      (doc.chunks.getD []).foldl
        (fun acc2 c => acc2 ++ [⟨doc.documentId, c.content, c.score, doc.metadata⟩]) acc) =
      fun acc doc => acc ++ (doc.chunks.getD []).map
        (fun c => ⟨doc.documentId, c.content, c.score, doc.metadata⟩) := by
    funext acc doc
    exact foldl_append_singleton _ _ _
  rw [hstep, foldl_append_blocks]
  simp

/-- C10: the agent-invocable search tools resolve the container tag with
only the registration-time agentId and no session key; consequently even
under containerScope "session" a tool-initiated search behaves exactly
as under agent scope, and with a non-empty agentId the tag it searches
with is prefix + agentId, never a session-level tag. -/
theorem tool_search_agent_level_tag (config : SupermemoryConfig) (agentId query : String)
    (lim : Option Nat) (h : config.containerScope = some "session") :
    supermemorySearchExecute config agentId query lim =
      supermemorySearchExecute { config with containerScope := some "agent" }
        agentId query lim ∧
    memorySearchExecute config agentId query lim =
      memorySearchExecute { config with containerScope := some "agent" } agentId query lim ∧
    (agentId ≠ "" →
      resolveContainerTag config (some agentId) none = some (tagPre config ++ agentId)) := by
  have hr : resolveContainerTag config (some agentId) none =
      resolveContainerTag { config with containerScope := some "agent" } (some agentId) none := by
    unfold resolveContainerTag
    simp [h, truthyStr, tagPre]
  refine ⟨?_, ?_, ?_⟩
  · unfold supermemorySearchExecute
    rw [hr]
  · unfold memorySearchExecute
    rw [hr]
  · intro ha
    unfold resolveContainerTag
    rw [if_pos h]
    simp [truthyStr, ha]

theorem tool_search_agent_level_tag_witness :
    (SupermemoryConfig.mk "" "tandem" (some "ns") (some "session") true).containerScope =
      some "session" ∧
    supermemorySearchExecute ⟨"", "tandem", some "ns", some "session", true⟩
        "main" "hello there" none =
      supermemorySearchExecute ⟨"", "tandem", some "ns", some "agent", true⟩
        "main" "hello there" none := by
  refine ⟨rfl, ?_⟩
  exact (tool_search_agent_level_tag ⟨"", "tandem", some "ns", some "session", true⟩
    "main" "hello there" none rfl).1
